import Mathlib

/-!
Shallow embedding of the expense tracker core (src/expense_manager.py,
src/data_handler.py) together with the one presentation-layer helper the
claims mention (src/run.py, description normalization).

Modelling decisions:
* Monetary amounts are exact rationals.  Python rounds floats with
  round-half-to-even; `round2` below is round-half-to-even on exact
  rationals, which agrees with CPython on every concrete value appearing
  in the claims (binary floating-point representation artifacts are
  outside the model).
* The persisted JSON file is a `FileContent`: missing, corrupt (not valid
  JSON), or a valid list of records.  `load_expenses` and `save_expenses`
  embed DataHandler.load_expenses / DataHandler.save_expenses; the model
  follows the successful write path of save (an OS-level write failure is
  outside the model).
* A stored record may lack the id field (the code reads it with
  exp.get with default 0), so `id` is an `Option Nat`.
* Python str.strip and str.lower are embedded as `pyStrip` and `pyLower`
  over the underlying character list.
* The Python dict built by get_category_summary is embedded as an
  insertion-ordered association list with Python assignment semantics
  (`dict_set` keeps the position of an existing key, appends a new one).
-/

/-- One expense record, as persisted in the JSON array. -/
structure Expense where
  id : Option Nat
  amount : ℚ
  category : String
  description : String
  date : String
deriving DecidableEq

/-- The fixed Category Set owned by ExpenseManager (self.categories). -/
def categories : List String :=
  ["Food", "Transportation", "Entertainment", "Shopping",
   "Bills", "Healthcare", "Education", "Other"]

/-- State of the backing resource of DataHandler. -/
inductive FileContent where
  | missing : FileContent
  | corrupt : FileContent
  | valid : List Expense → FileContent
deriving DecidableEq

/-- DataHandler.load_expenses: a missing file or a JSON decode error is
caught and becomes the empty list; otherwise the stored list is returned. -/
def load_expenses : FileContent → List Expense
  | .missing => []
  | .corrupt => []
  | .valid es => es

/-- DataHandler.save_expenses on its successful path: the whole file is
overwritten with the given list. -/
def save_expenses (es : List Expense) (_fc : FileContent) : FileContent :=
  .valid es

/-- Python str.strip: drop leading and trailing whitespace. -/
def pyStrip (s : String) : String :=
  ⟨((s.data.dropWhile Char.isWhitespace).reverse.dropWhile Char.isWhitespace).reverse⟩

/-- Python str.lower (ASCII case folding suffices for the category names). -/
def pyLower (s : String) : String :=
  ⟨s.data.map Char.toLower⟩

/-- Round a rational to the nearest integer, ties to even — the rounding
CPython round uses. -/
def roundHalfEven (q : ℚ) : ℤ :=
  let f := ⌊q⌋
  if q - f < 1/2 then f
  else if q - f = 1/2 then (if f % 2 = 0 then f else f + 1)
  else f + 1

/-- Python round(x, 2): round to 2 fractional digits. -/
def round2 (q : ℚ) : ℚ := ((roundHalfEven (q * 100) : ℤ) : ℚ) / 100

/-- The id of a record as _generate_id reads it: exp.get with default 0. -/
def Expense.getId (e : Expense) : Nat := e.id.getD 0

/-- Python max(l, default=0): 0 on the empty list, the maximum otherwise. -/
def pyMaxD0 : List Nat → Nat
  | [] => 0
  | x :: xs => xs.foldl Nat.max x

/-- ExpenseManager._generate_id: max of the stored ids (missing id read
as 0, empty list as 0) plus 1. -/
def generate_id (es : List Expense) : Nat :=
  pyMaxD0 (es.map Expense.getId) + 1

/-- ExpenseManager.get_all_expenses. -/
def get_all_expenses (fc : FileContent) : List Expense :=
  load_expenses fc

/-- ExpenseManager.get_expenses_by_category. -/
def get_expenses_by_category (category : String) (fc : FileContent) :
    List Expense :=
  (get_all_expenses fc).filter (fun e => pyLower e.category == pyLower category)

/-- ExpenseManager.calculate_total: Python sum is a left fold from 0. -/
def calculate_total (expenses : Option (List Expense)) (fc : FileContent) : ℚ :=
  let es := match expenses with
    | none => get_all_expenses fc
    | some es => es
  round2 (es.foldl (fun acc e => acc + e.amount) 0)

/-- Python dict lookup with a default (summary.get(category, 0)). -/
def dict_get (l : List (String × ℚ)) (k : String) (d : ℚ) : ℚ :=
  match l with
  | [] => d
  | (k', v) :: rest => if k' = k then v else dict_get rest k d

/-- Python dict assignment: an existing key keeps its position, a new key
is appended at the end. -/
def dict_set (l : List (String × ℚ)) (k : String) (v : ℚ) :
    List (String × ℚ) :=
  match l with
  | [] => [(k, v)]
  | (k', v') :: rest =>
      if k' = k then (k', v) :: rest else (k', v') :: dict_set rest k v

/-- The loop body of get_category_summary:
summary[category] = summary.get(category, 0) + expense["amount"]. -/
def summarize_step (s : List (String × ℚ)) (e : Expense) : List (String × ℚ) :=
  dict_set s e.category (dict_get s e.category 0 + e.amount)

/-- ExpenseManager.get_category_summary: accumulate amount per category in
an insertion-ordered dict, then round each accumulated value. -/
def get_category_summary (fc : FileContent) : List (String × ℚ) :=
  let summary := (get_all_expenses fc).foldl summarize_step []
  summary.map (fun kv => (kv.1, round2 kv.2))

/-- ExpenseManager.add_expense.  Validation errors are the raised
ValueError messages; on valid input the new record is appended to the
loaded list and the whole list saved.  The Bool is the return of
save_expenses (True on the modelled successful write path). -/
def add_expense (amount : ℚ) (category description now : String)
    (fc : FileContent) : Except String Bool × FileContent :=
  if amount ≤ 0 then
    (.error "Amount must be positive", fc)
  else if category ∉ categories then
    (.error ("Invalid category. Choose from: " ++
      String.intercalate ", " categories), fc)
  else
    let expense : Expense :=
      { id := some (generate_id (get_all_expenses fc))
        amount := round2 amount
        category := category
        description := pyStrip description
        date := now }
    let expenses := load_expenses fc
    (.ok true, save_expenses (expenses ++ [expense]) fc)

/-- ExpenseTrackerApp.add_expense (src/run.py): the presentation layer
strips the raw description and replaces an empty result by the
placeholder before calling the core. -/
def app_normalize_description (raw : String) : String :=
  let description := pyStrip raw
  if description = "" then "No description" else description

/-! ## Helper lemmas -/

/-- Evaluation of add_expense on valid input: the record built from the
rounded amount, trimmed description and freshly generated id is appended to
the loaded list and the whole list saved. -/
theorem add_expense_ok (amount : ℚ) (category description now : String)
    (fc : FileContent) (h1 : ¬amount ≤ 0) (h2 : category ∈ categories) :
    add_expense amount category description now fc =
      (Except.ok true,
       FileContent.valid (load_expenses fc ++
         [{ id := some (generate_id (load_expenses fc)),
            amount := round2 amount, category := category,
            description := pyStrip description, date := now }])) := by
  simp [add_expense, h1, h2, get_all_expenses, save_expenses]

/-- Python sum over amounts, as a left fold, equals the list sum. -/
theorem foldl_add_amount (es : List Expense) (a : ℚ) :
    es.foldl (fun acc e => acc + e.amount) a = a + (es.map Expense.amount).sum := by
  induction es generalizing a with
  | nil => simp
  | cons e rest ih => simp [ih, add_assoc]

theorem round2_zero : round2 0 = 0 := by
  norm_num [round2, roundHalfEven]

/-- The seed of a fold over Nat.max is a lower bound of the result. -/
theorem foldl_max_init_le (l : List Nat) (a : Nat) : a ≤ l.foldl Nat.max a := by
  induction l generalizing a with
  | nil => exact Nat.le_refl a
  | cons x xs ih => exact Nat.le_trans (Nat.le_max_left a x) (ih (Nat.max a x))

/-- Every member of the list is bounded by the fold over Nat.max. -/
theorem le_foldl_max (l : List Nat) (a x : Nat) (hx : x ∈ l) :
    x ≤ l.foldl Nat.max a := by
  induction l generalizing a with
  | nil => cases hx
  | cons y ys ih =>
    rcases List.mem_cons.mp hx with rfl | hmem
    · exact Nat.le_trans (Nat.le_max_right a x) (foldl_max_init_le ys (Nat.max a x))
    · exact ih (Nat.max a y) hmem

/-- Python max with default 0 is the fold of Nat.max from 0. -/
theorem pyMaxD0_eq_foldl (l : List Nat) : pyMaxD0 l = l.foldl Nat.max 0 := by
  cases l with
  | nil => rfl
  | cons x xs => simp [pyMaxD0, List.foldl_cons, Nat.zero_max]

/-- Lookup after assignment: the assigned key reads the new value, the
other keys are untouched. -/
theorem dict_get_dict_set (l : List (String × ℚ)) (k k' : String) (v d : ℚ) :
    dict_get (dict_set l k v) k' d = if k = k' then v else dict_get l k' d := by
  induction l with
  | nil => simp [dict_set, dict_get]
  | cons p rest ih =>
    obtain ⟨a, b⟩ := p
    by_cases hak : a = k
    · subst hak
      by_cases hkk : a = k'
      · subst hkk; simp [dict_set, dict_get]
      · simp [dict_set, dict_get, hkk]
    · by_cases hk' : a = k'
      · subst hk'
        have hka : ¬k = a := fun h => hak h.symm
        simp [dict_set, dict_get, hak, hka, ih]
      · simp [dict_set, dict_get, hak, hk', ih]

/-- The keys after an assignment are the old keys together with the
assigned key. -/
theorem mem_keys_dict_set (l : List (String × ℚ)) (k k' : String) (v : ℚ) :
    k' ∈ (dict_set l k v).map Prod.fst ↔ k' ∈ l.map Prod.fst ∨ k' = k := by
  induction l with
  | nil => simp [dict_set]
  | cons p rest ih =>
    obtain ⟨a, b⟩ := p
    by_cases hak : a = k
    · subst hak; simp [dict_set]; tauto
    · simp [dict_set, hak, ih]; tauto

/-- Assignment keeps the keys of a dict without repeated keys free of
repetitions. -/
theorem keys_nodup_dict_set (l : List (String × ℚ)) (k : String) (v : ℚ)
    (h : (l.map Prod.fst).Nodup) : ((dict_set l k v).map Prod.fst).Nodup := by
  induction l with
  | nil => simp [dict_set]
  | cons p rest ih =>
    obtain ⟨a, b⟩ := p
    simp only [List.map_cons, List.nodup_cons] at h
    by_cases hak : a = k
    · subst hak
      simpa [dict_set] using h
    · simp only [dict_set, hak, if_false, List.map_cons, List.nodup_cons]
      refine ⟨?_, ih h.2⟩
      rw [mem_keys_dict_set]
      rintro (hmem | rfl)
      · exact h.1 hmem
      · exact hak rfl

/-- In a dict without repeated keys, membership of a pair determines the
lookup. -/
theorem dict_get_of_mem (l : List (String × ℚ)) (k : String) (v : ℚ)
    (hnd : (l.map Prod.fst).Nodup) (hmem : (k, v) ∈ l) : dict_get l k 0 = v := by
  induction l with
  | nil => cases hmem
  | cons p rest ih =>
    obtain ⟨a, b⟩ := p
    simp only [List.map_cons, List.nodup_cons] at hnd
    rcases List.mem_cons.mp hmem with heq | hmem'
    · rw [Prod.ext_iff] at heq
      obtain ⟨h1, h2⟩ := heq
      subst h1
      subst h2
      simp [dict_get]
    · have hak : ¬a = k := by
        rintro rfl
        exact hnd.1 (List.mem_map.mpr ⟨(a, v), hmem', rfl⟩)
      simp [dict_get, hak, ih hnd.2 hmem']

/-- Accumulating over a list of expenses adds, per key, exactly the sum of
the amounts of the expenses carrying that key as category. -/
theorem dict_get_foldl_step (es : List Expense) (s : List (String × ℚ))
    (k : String) :
    dict_get (es.foldl summarize_step s) k 0 =
      dict_get s k 0 +
        ((es.filter (fun e => e.category == k)).map Expense.amount).sum := by
  induction es generalizing s with
  | nil => simp
  | cons e rest ih =>
    rw [List.foldl_cons, ih]
    by_cases h : e.category = k
    · simp [summarize_step, dict_get_dict_set, h, List.filter_cons, add_assoc]
    · simp [summarize_step, dict_get_dict_set, h, List.filter_cons]

/-- The keys accumulated by the fold are the seed keys together with the
categories occurring in the list. -/
theorem mem_keys_foldl_step (es : List Expense) (s : List (String × ℚ))
    (k : String) :
    k ∈ (es.foldl summarize_step s).map Prod.fst ↔
      k ∈ s.map Prod.fst ∨ ∃ e ∈ es, e.category = k := by
  induction es generalizing s with
  | nil => simp
  | cons e rest ih =>
    rw [List.foldl_cons, ih]
    simp only [summarize_step, mem_keys_dict_set, List.mem_cons]
    constructor
    · rintro ((hs | rfl) | ⟨e', he', rfl⟩)
      · exact Or.inl hs
      · exact Or.inr ⟨e, Or.inl rfl, rfl⟩
      · exact Or.inr ⟨e', Or.inr he', rfl⟩
    · rintro (hs | ⟨e', (rfl | he'), rfl⟩)
      · exact Or.inl (Or.inl hs)
      · exact Or.inl (Or.inr rfl)
      · exact Or.inr ⟨e', he', rfl⟩

/-- The fold never creates a repeated key. -/
theorem keys_nodup_foldl_step (es : List Expense) (s : List (String × ℚ))
    (h : (s.map Prod.fst).Nodup) :
    ((es.foldl summarize_step s).map Prod.fst).Nodup := by
  induction es generalizing s with
  | nil => exact h
  | cons e rest ih =>
    exact ih _ (keys_nodup_dict_set _ _ _ h)

/-! ## Claim theorems -/

/-- Claim C1: for every collection state and every valid input (positive
amount, category in the Category Set, any description), AddExpense followed
by GetAllExpenses yields a collection with exactly one more record,
appended at the end with the prior insertion order preserved, whose amount
is the input rounded to 2 decimals and whose id is the maximum id
previously present (missing ids read as 0) plus 1 — which is 1 when the
collection was empty. -/
theorem add_expense_valid_appends (fc : FileContent) (amount : ℚ)
    (category description now : String)
    (hpos : 0 < amount) (hcat : category ∈ categories) :
    (add_expense amount category description now fc).1 = Except.ok true ∧
    get_all_expenses (add_expense amount category description now fc).2 =
      get_all_expenses fc ++
        [{ id := some (pyMaxD0 ((get_all_expenses fc).map Expense.getId) + 1),
           amount := round2 amount, category := category,
           description := pyStrip description, date := now }] ∧
    (get_all_expenses (add_expense amount category description now fc).2).length =
      (get_all_expenses fc).length + 1 ∧
    (get_all_expenses fc = [] →
      pyMaxD0 ((get_all_expenses fc).map Expense.getId) + 1 = 1) := by
  rw [add_expense_ok amount category description now fc (not_le.mpr hpos) hcat]
  refine ⟨rfl, ?_, ?_, ?_⟩
  · simp [get_all_expenses, load_expenses, generate_id]
  · simp [get_all_expenses, load_expenses]
  · intro h
    simp [get_all_expenses] at h
    simp [get_all_expenses, h, pyMaxD0]

/-- Witness for C1: adding amount 1 with category Food to the empty
collection. -/
theorem add_expense_valid_appends_witness :
    (add_expense 1 "Food" " lunch " "2024-01-01" (FileContent.valid [])).1 =
      Except.ok true ∧
    get_all_expenses
        (add_expense 1 "Food" " lunch " "2024-01-01" (FileContent.valid [])).2 =
      get_all_expenses (FileContent.valid []) ++
        [{ id := some (pyMaxD0
             ((get_all_expenses (FileContent.valid [])).map Expense.getId) + 1),
           amount := round2 1, category := "Food",
           description := pyStrip " lunch ", date := "2024-01-01" }] ∧
    (get_all_expenses
        (add_expense 1 "Food" " lunch " "2024-01-01" (FileContent.valid [])).2).length =
      (get_all_expenses (FileContent.valid [])).length + 1 ∧
    (get_all_expenses (FileContent.valid []) = [] →
      pyMaxD0 ((get_all_expenses (FileContent.valid [])).map Expense.getId) + 1 = 1) :=
  add_expense_valid_appends (FileContent.valid []) 1 "Food" " lunch " "2024-01-01"
    (by decide) (by decide)

/-- Claim C2: AddExpense with a non-positive amount or an unrecognized
category fails with a validation error and leaves the persisted state, and
hence GetAllExpenses, unchanged. -/
theorem add_expense_invalid_rejected (fc : FileContent) (amount : ℚ)
    (category description now : String)
    (h : amount ≤ 0 ∨ category ∉ categories) :
    (∃ msg : String,
      (add_expense amount category description now fc).1 = Except.error msg) ∧
    (add_expense amount category description now fc).2 = fc ∧
    get_all_expenses (add_expense amount category description now fc).2 =
      get_all_expenses fc := by
  by_cases hA : amount ≤ 0
  · refine ⟨⟨"Amount must be positive", ?_⟩, ?_, ?_⟩ <;> simp [add_expense, hA]
  · have hc : category ∉ categories := h.resolve_left hA
    refine ⟨⟨"Invalid category. Choose from: " ++
      String.intercalate ", " categories, ?_⟩, ?_, ?_⟩ <;> simp [add_expense, hA, hc]

/-- Witness for C2: adding amount 0 with category Food to the empty
collection is rejected and changes nothing. -/
theorem add_expense_invalid_rejected_witness :
    (∃ msg : String,
      (add_expense 0 "Food" "x" "t" (FileContent.valid [])).1 = Except.error msg) ∧
    (add_expense 0 "Food" "x" "t" (FileContent.valid [])).2 = FileContent.valid [] ∧
    get_all_expenses (add_expense 0 "Food" "x" "t" (FileContent.valid [])).2 =
      get_all_expenses (FileContent.valid []) :=
  add_expense_invalid_rejected (FileContent.valid []) 0 "Food" "x" "t"
    (Or.inl (by decide))

/-- Claim C3: CalculateTotal returns the sum of the amount fields of the
given collection (or of the full persisted collection when the argument is
omitted) rounded to 2 decimals, and 0 for the empty collection. -/
theorem calculate_total_spec (fc : FileContent) (expenses : Option (List Expense)) :
    calculate_total expenses fc =
      round2 (((expenses.getD (get_all_expenses fc)).map Expense.amount).sum) ∧
    calculate_total (some []) fc = 0 ∧
    calculate_total none fc =
      round2 (((get_all_expenses fc).map Expense.amount).sum) := by
  refine ⟨?_, ?_, ?_⟩
  · cases expenses <;> simp [calculate_total, foldl_add_amount]
  · simp [calculate_total, round2_zero]
  · simp [calculate_total, foldl_add_amount]

/-- Claim C4: GetExpensesByCategory returns exactly the records whose
category matches the argument case-insensitively, as a subsequence of the
stored order, and an unrecognized category simply yields the empty list. -/
theorem get_expenses_by_category_spec (fc : FileContent) (category : String) :
    List.Sublist (get_expenses_by_category category fc) (get_all_expenses fc) ∧
    (∀ e : Expense, e ∈ get_expenses_by_category category fc ↔
      e ∈ get_all_expenses fc ∧ pyLower e.category = pyLower category) ∧
    ((∀ e ∈ get_all_expenses fc, pyLower e.category ≠ pyLower category) →
      get_expenses_by_category category fc = []) := by
  refine ⟨List.filter_sublist _, fun e => ?_, fun h => ?_⟩
  · simp [get_expenses_by_category, List.mem_filter]
  · rw [get_expenses_by_category, List.filter_eq_nil_iff]
    intro e he
    simpa using h e he

/-- Claim C7: Load returns the empty collection when the backing resource
is missing or holds invalid data (and raises nothing — it is total), and
the deserialized collection otherwise. -/
theorem load_expenses_lenient :
    load_expenses FileContent.missing = [] ∧
    load_expenses FileContent.corrupt = [] ∧
    ∀ es : List Expense, load_expenses (FileContent.valid es) = es :=
  ⟨rfl, rfl, fun _ => rfl⟩

/-- Claim C8: saving what was just loaded and loading again returns the
same collection the first load produced. -/
theorem save_load_roundtrip (fc : FileContent) :
    load_expenses (save_expenses (load_expenses fc) fc) = load_expenses fc := by
  cases fc <;> rfl

/-- Claim C9: the id generated for a new expense is at least 1 and strictly
greater than every id already present (a record without an id field counts
as id 0), and it equals the fold of max over the present ids (0 when the
collection is empty) plus 1. -/
theorem generate_id_spec (es : List Expense) :
    1 ≤ generate_id es ∧
    (∀ e ∈ es, e.getId < generate_id es) ∧
    generate_id es = (es.map Expense.getId).foldl Nat.max 0 + 1 ∧
    (∀ e : Expense, e.id = none → e.getId = 0) := by
  refine ⟨Nat.le_add_left 1 _, fun e he => ?_, ?_, fun e h => ?_⟩
  · have hmem : e.getId ∈ es.map Expense.getId := List.mem_map.mpr ⟨e, he, rfl⟩
    have hle : e.getId ≤ pyMaxD0 (es.map Expense.getId) := by
      rw [pyMaxD0_eq_foldl]
      exact le_foldl_max _ 0 _ hmem
    exact Nat.lt_succ_of_le hle
  · rw [generate_id, pyMaxD0_eq_foldl]
  · simp [Expense.getId, h]

/-- Claim C5: the summary has a key exactly for the categories that occur
in the persisted collection, and maps each such category to the rounded
sum of the amounts of its records (rounding applied once, to the
accumulated sum). -/
theorem get_category_summary_spec (fc : FileContent) (k : String) :
    (k ∈ (get_category_summary fc).map Prod.fst ↔
      ∃ e ∈ get_all_expenses fc, e.category = k) ∧
    (∀ v : ℚ, (k, v) ∈ get_category_summary fc →
      v = round2 ((((get_all_expenses fc).filter
        (fun e => e.category == k)).map Expense.amount).sum)) := by
  constructor
  · simp only [get_category_summary, List.map_map]
    have hfst : (Prod.fst ∘ fun kv : String × ℚ => (kv.1, round2 kv.2)) =
        Prod.fst := rfl
    rw [hfst, mem_keys_foldl_step]
    simp
  · intro v hv
    simp only [get_category_summary, List.mem_map] at hv
    obtain ⟨⟨k0, v0⟩, hmem, heq⟩ := hv
    simp only [Prod.mk.injEq] at heq
    obtain ⟨hk, hvv⟩ := heq
    subst hk
    have hnd : ((((get_all_expenses fc).foldl summarize_step
        ([] : List (String × ℚ)))).map Prod.fst).Nodup :=
      keys_nodup_foldl_step _ [] (by simp)
    have hget := dict_get_of_mem _ _ _ hnd hmem
    rw [dict_get_foldl_step] at hget
    simp only [dict_get, zero_add] at hget
    rw [← hvv, ← hget]

theorem round2_10005over1000 : round2 (10005/1000) = 10 := by
  norm_num [round2, roundHalfEven]

theorem round2_five : round2 5 = 5 := by
  norm_num [round2, roundHalfEven]

theorem round2_fifteen : round2 15 = 15 := by
  norm_num [round2, roundHalfEven]

/-- The store contents after adding amounts 10.005 and then 5 to an empty
store: 10.005 is rounded half-to-even down to 10. -/
theorem state_after_adding_10005_then_5 :
    (add_expense 5 "Food" "coffee" "t2"
      ((add_expense (10005/1000) "Food" "lunch" "t1" (FileContent.valid [])).2)).2 =
    FileContent.valid
      [{ id := some 1, amount := 10, category := "Food",
         description := "lunch", date := "t1" },
       { id := some 2, amount := 5, category := "Food",
         description := "coffee", date := "t2" }] := by
  have h1 : (add_expense (10005/1000) "Food" "lunch" "t1" (FileContent.valid [])).2 =
      FileContent.valid
        [{ id := some 1, amount := 10, category := "Food",
           description := "lunch", date := "t1" }] := by
    rw [add_expense_ok _ _ _ _ _ (by norm_num) (by decide)]
    simp [load_expenses, generate_id, pyMaxD0, round2_10005over1000]
    decide
  rw [h1, add_expense_ok _ _ _ _ _ (by norm_num) (by decide)]
  simp [load_expenses, generate_id, pyMaxD0, Expense.getId, round2_five]
  decide

/-- Claim C6 counterexample: the code rounds 10.005 half-to-even down to
10.00 (CPython agrees: the binary double for 10.005 is below the decimal
midpoint), so the stored amount is not 10.01 and the two-record total is
15.00, not the 15.01 the claim states. -/
theorem total_after_10005_then_5_not_1501 :
    calculate_total none
      (add_expense 5 "Food" "coffee" "t2"
        ((add_expense (10005/1000) "Food" "lunch" "t1"
          (FileContent.valid [])).2)).2 = 15 ∧
    (15 : ℚ) ≠ 1501/100 ∧
    round2 (10005/1000) ≠ 1001/100 := by
  refine ⟨?_, by norm_num, ?_⟩
  · rw [state_after_adding_10005_then_5]
    simp [calculate_total, get_all_expenses, load_expenses]
    norm_num [round2_fifteen]
  · rw [round2_10005over1000]
    norm_num

/-- Claim C6 amended: AddExpense stores the amount rounded to 2 fractional
digits with round-half-to-even (Python round), so 10.005 is stored as
10.00 and CalculateTotal over the two-record collection built by adding
amounts 10.005 and 5.00 returns 15.00. -/
theorem total_after_10005_then_5_amended :
    round2 (10005/1000) = 10 ∧
    calculate_total none
      (add_expense 5 "Food" "coffee" "t2"
        ((add_expense (10005/1000) "Food" "lunch" "t1"
          (FileContent.valid [])).2)).2 = 15 := by
  refine ⟨round2_10005over1000, ?_⟩
  rw [state_after_adding_10005_then_5]
  simp [calculate_total, get_all_expenses, load_expenses]
  norm_num [round2_fifteen]

/-- Claim C10: the core stores the description exactly as stripped of
leading and trailing whitespace; a whitespace-only description is stored
as the empty string, not as the placeholder, which only the presentation
layer (run.py) substitutes before calling the core. -/
theorem description_stored_stripped (fc : FileContent) (amount : ℚ)
    (category description now : String)
    (hpos : 0 < amount) (hcat : category ∈ categories)
    (hws : pyStrip description = "") :
    get_all_expenses (add_expense amount category description now fc).2 =
      get_all_expenses fc ++
        [{ id := some (generate_id (get_all_expenses fc)),
           amount := round2 amount, category := category,
           description := "", date := now }] ∧
    ("" : String) ≠ "No description" ∧
    app_normalize_description description = "No description" := by
  refine ⟨?_, by decide, ?_⟩
  · rw [add_expense_ok _ _ _ _ _ (not_le.mpr hpos) hcat]
    simp [get_all_expenses, load_expenses, hws]
  · simp [app_normalize_description, hws]

/-- Witness for C10: a whitespace-only description is stored as the empty
string while the presentation layer would pass the placeholder instead. -/
theorem description_stored_stripped_witness :
    get_all_expenses (add_expense 1 "Food" "   " "t" (FileContent.valid [])).2 =
      get_all_expenses (FileContent.valid []) ++
        [{ id := some (generate_id (get_all_expenses (FileContent.valid []))),
           amount := round2 1, category := "Food",
           description := "", date := "t" }] ∧
    ("" : String) ≠ "No description" ∧
    app_normalize_description "   " = "No description" :=
  description_stored_stripped (FileContent.valid []) 1 "Food" "   " "t"
    (by decide) (by decide) (by decide)
